import Mathlib

/-!
Verification development for the client-side conversion orchestration layer
of the Obsidian converter front end: item normalization, URL canonicalization,
the per-item versus batch dispatch decision, job tracking, cancellation and
download triggering, shallowly embedded from the JavaScript sources.

Strings are modelled through their character lists; JavaScript toLowerCase is
modelled on the ASCII range; the URL object is modelled for plain
scheme://host/path?query URLs (no ports, userinfo, percent-encoding or
dot-segment handling); JavaScript object spread over option maps is modelled
field-wise over the option keys the sources use.
-/

def lowerChar (c : Char) : Char :=
  if 65 ≤ c.toNat ∧ c.toNat ≤ 90 then Char.ofNat (c.toNat + 32) else c

abbrev Chars := List Char

def lowerS (l : Chars) : Chars := l.map lowerChar

def isSlashSlash : Chars → Bool
  | c1 :: c2 :: _ => c1 == '/' && c2 == '/'
  | _ => false

def splitScheme : Chars → Option (Chars × Chars)
  | [] => none
  | c :: rest =>
    if c = ':' ∧ isSlashSlash rest = true then some ([], rest.drop 2)
    else (splitScheme rest).map (fun p => (c :: p.1, p.2))

def isStop (c : Char) : Bool := c == '/' || c == '?'

def splitHost : Chars → Chars × Chars
  | [] => ([], [])
  | c :: rest =>
    if isStop c then ([], c :: rest)
    else (c :: (splitHost rest).1, (splitHost rest).2)

def splitPath : Chars → Chars × Chars
  | [] => ([], [])
  | c :: rest =>
    if c = '?' then ([], c :: rest)
    else (c :: (splitPath rest).1, (splitPath rest).2)

structure URLc where
  scheme : Chars
  host : Chars
  path : Chars
  query : Chars
deriving Repr, DecidableEq

def schemeSep : Chars := [':', '/', '/']

def parseChars (l : Chars) : Option URLc :=
  match splitScheme l with
  | none => none
  | some (sch, rest) =>
    if sch = [] then none
    else
      let hp := splitHost rest
      if hp.1 = [] then none
      else
        let pq := splitPath hp.2
        some { scheme := lowerS sch, host := lowerS hp.1,
               path := if pq.1 = [] then ['/'] else pq.1, query := pq.2 }

def hrefChars (u : URLc) : Chars := u.scheme ++ schemeSep ++ u.host ++ u.path ++ u.query

def stripTrail : Chars → Chars
  | [] => []
  | c :: rest => if c = '/' ∧ stripTrail rest = [] then [] else c :: stripTrail rest

def normOfURLc (u : URLc) : Chars :=
  let p := lowerS (stripTrail u.path)
  lowerS (hrefChars { u with path := if p = [] then ['/'] else p })

def normChars (l : Chars) : Option Chars := (parseChars l).map normOfURLc

def normalizeUrl (s : String) : Option String := (normChars s.data).map (fun l => String.mk l)

def sepFree : Chars → Bool
  | [] => true
  | c :: rest => !(c == ':' && isSlashSlash rest) && sepFree rest

def hostFree (l : Chars) : Bool := l.all (fun c => !(isStop c))

def stopHead : Chars → Bool
  | [] => true
  | c :: _ => isStop c

def qFree (l : Chars) : Bool := l.all (fun c => !(c == '?'))

def qHead : Chars → Bool
  | [] => true
  | c :: _ => c == '?'

def FILE_SIZE_LIMIT : Nat := 500 * 1024 * 1024

def audioExts : List String := ["mp3", "wav", "ogg", "m4a", "aac", "wma"]

def videoExts : List String := ["mp4", "mov", "avi", "mkv", "webm"]

def documentExts : List String := ["pdf", "docx", "pptx"]

def dataExts : List String := ["csv", "xlsx"]

def apiRequiredExts : List String := ["mp3", "wav", "m4a", "mp4", "webm", "avi"]

structure Options where
  includeImages : Option Bool := none
  includeMeta : Option Bool := none
  convertLinks : Option Bool := none
  depth : Option Nat := none
  maxPages : Option Nat := none
  maxDepth : Option Nat := none
deriving Repr, DecidableEq

def mergeField {α : Type} (a b : Option α) : Option α :=
  match b with
  | some v => some v
  | none => a

def Options.merge (a b : Options) : Options :=
  { includeImages := mergeField a.includeImages b.includeImages
    includeMeta := mergeField a.includeMeta b.includeMeta
    convertLinks := mergeField a.convertLinks b.convertLinks
    depth := mergeField a.depth b.depth
    maxPages := mergeField a.maxPages b.maxPages
    maxDepth := mergeField a.maxDepth b.maxDepth }

def defaultOptions : Options :=
  { includeImages := some true, includeMeta := some true, convertLinks := some true }

def parentExtra : Options := { depth := some 1, maxPages := some 10 }

structure FileData where
  size : Nat
deriving Repr, DecidableEq

structure Item where
  id : String := ""
  name : String := ""
  type : Option String := none
  url : Option String := none
  content : Option String := none
  file : Option FileData := none
  options : Options := {}
  shouldBatch : Option Bool := none
deriving Repr, DecidableEq

structure ErrInfo where
  message : String
  code : String
deriving Repr, DecidableEq

def ConversionError.validation (m : String) : ErrInfo :=
  { message := m, code := "VALIDATION_ERROR" }

def truthyS (o : Option String) : Bool :=
  match o with
  | some s => !(s == "")
  | none => false

def jsOr (a b : Option String) : Option String := if truthyS a then a else b

def extOf (name : String) : String :=
  String.mk (lowerS ((name.data.reverse.takeWhile (fun c => !(c == '.'))).reverse))

def startsWithHttp : Chars → Bool
  | 'h' :: 't' :: 't' :: 'p' :: _ => true
  | _ => false

def determineFileType (extension : String) : Option String :=
  if extension = "" then none
  else
    let ext := String.mk (lowerS extension.data)
    if ext ∈ audioExts then some "audio"
    else if ext ∈ videoExts then some "video"
    else if ext ∈ documentExts then some "document"
    else if ext ∈ dataExts then some "data"
    else none

def prepareItem (apiKey : String) (item : Item) : Except ErrInfo Item :=
  if item.id = "" ∨ item.name = "" then
    .error (ConversionError.validation
      ("Item " ++ item.name ++ " is missing required properties"))
  else
    match item.file with
    | some f =>
      if f.size > FILE_SIZE_LIMIT then
        .error (ConversionError.validation "File size exceeds limit of 500MB")
      else
        match determineFileType (extOf item.name) with
        | none =>
          .error (ConversionError.validation ("Unsupported file type: " ++ extOf item.name))
        | some t =>
          if extOf item.name ∈ apiRequiredExts ∧ apiKey = "" then
            .error (ConversionError.validation "API key is required for this file type")
          else
            .ok { id := item.id, name := item.name, type := some t, file := some f,
                  url := none, content := none, options := defaultOptions,
                  shouldBatch := none }
    | none =>
      if item.type = some "url" ∨ item.type = some "parent" ∨ truthyS item.url = true ∨
          startsWithHttp item.name.data = true then
        match normalizeUrl ((jsOr item.url (jsOr item.content (some item.name))).getD "") with
        | none => .error (ConversionError.validation "Invalid URL format")
        | some n =>
          .ok { id := item.id, name := item.name,
                type := some (if item.type = some "parent" then "parent" else "url"),
                url := some n, content := some n, file := none,
                options := (defaultOptions.merge
                  (if item.type = some "parent" then parentExtra else {})).merge item.options,
                shouldBatch := none }
      else
        .error (ConversionError.validation
          ("Unsupported item type or missing content: " ++ item.name))

def collectResults {α : Type} : List (Except ErrInfo α) → Except ErrInfo (List α)
  | [] => .ok []
  | .error e :: _ => .error e
  | .ok a :: t => (collectResults t).map (fun r => a :: r)

def prepareBatchItems (apiKey : String) (items : List Item) : Except ErrInfo (List Item) :=
  if items = [] then .error (ConversionError.validation "No items provided for conversion")
  else
    (collectResults (items.map (prepareItem apiKey))).map
      (fun l => l.map (fun p => { p with shouldBatch := some (p.type ≠ some "document") }))

def getEndpoint (item : Item) : String :=
  if item.type = some "audio" then "/multimedia/audio"
  else if item.type = some "video" then "/multimedia/video"
  else if item.type = some "url" then "/web/url"
  else if item.type = some "parent" then "/web/parent-url"
  else "/document/file"

def useBatchDecision (items : List Item) : Bool :=
  decide (1 < items.length) && !(items.all (fun i => i.type == some "document"))

inductive Request where
  | jsonReq (endpoint : String) (url : String) (name : String) (options : Options)
  | formReq (endpoint : String) (file : FileData) (options : Options)
  | invalidReq
deriving Repr, DecidableEq

def requestOf (item : Item) : Request :=
  if item.type = some "url" then
    .jsonReq (getEndpoint item) ((jsOr item.url item.content).getD "")
      (if item.name = "" then "url-conversion" else item.name) item.options
  else if item.type = some "parent" then
    .jsonReq (getEndpoint item) (item.content.getD "") item.name item.options
  else
    match item.file with
    | some f => .formReq (getEndpoint item) f item.options
    | none => .invalidReq

structure UrlItemJson where
  id : String
  type : Option String
  url : Option String
  name : String
  options : Options
deriving Repr, DecidableEq

structure BatchForm where
  files : List FileData
  itemsField : Option (List UrlItemJson)
deriving Repr, DecidableEq

def processBatchForm (items : List Item) : BatchForm :=
  let fs := items.filterMap (fun i => i.file)
  let urlItems := (items.filter (fun i => i.file.isNone &&
      (truthyS i.url || i.type == some "url"))).map
    (fun i => { id := i.id, type := i.type, url := jsOr i.url i.content,
                name := i.name, options := i.options : UrlItemJson })
  { files := fs, itemsField := if urlItems.isEmpty then none else some urlItems }

inductive DispatchPlan where
  | batch (form : BatchForm)
  | perItem (reqs : List Request)
deriving Repr, DecidableEq

def dispatchPlan (items : List Item) : DispatchPlan :=
  if useBatchDecision items then .batch (processBatchForm items)
  else .perItem (items.map requestOf)

structure RespData where
  jobId : Option String := none
deriving Repr, DecidableEq

inductive RespOutcome where
  | ok (data : RespData)
  | err (e : ErrInfo)
deriving Repr, DecidableEq

structure JobPair where
  jobId : String
  itemId : String
deriving Repr, DecidableEq

def noJobIdError : ErrInfo :=
  { message := "No job ID received from server", code := "CONVERSION_ERROR" }

def itemJobResult (resp : Item → RespOutcome) (item : Item) : Except ErrInfo JobPair :=
  match resp item with
  | .err e => .error e
  | .ok d =>
    if (d.jobId.getD "") = "" then .error noJobIdError
    else .ok { jobId := d.jobId.getD "", itemId := item.id }

def processItemsJob (resp : Item → RespOutcome) (items : List Item) :
    Except ErrInfo (List JobPair) :=
  collectResults (items.map (itemJobResult resp))

def itemOutcomes (resp : Item → RespOutcome) (items : List Item) :
    List (String × Except ErrInfo JobPair) :=
  items.map (fun i => (i.id, itemJobResult resp i))

structure AggState where
  status : String := "ready"
  progress : Nat := 0
  error : Option String := none
  completedCount : Nat := 0
  errorCount : Nat := 0
deriving Repr, DecidableEq

def AggState.setStatus (s : AggState) (st : String) : AggState := { s with status := st }

def AggState.setProgress (s : AggState) (p : Nat) : AggState := { s with progress := p }

def AggState.setError (s : AggState) (msg : String) : AggState :=
  { s with error := some msg, status := if msg ≠ "" then "error" else s.status }

def AggState.reset (_ : AggState) : AggState := {}

structure FileItem where
  id : String
  name : String
  file : Option FileData := none
  type : Option String := none
  url : Option String := none
  content : Option String := none
  status : String := "Ready"
  progress : Nat := 0
  selected : Bool := false
  requiresApiKey : Bool := false
  jobId : Option String := none
  error : Option String := none
  downloadUrl : Option String := none
  options : Options := {}
deriving Repr, DecidableEq

def FileItem.toItem (f : FileItem) : Item :=
  { id := f.id, name := f.name, type := f.type, url := f.url, content := f.content,
    file := f.file, options := f.options }

/-- Modelled from the spec: the files store itself (src/lib/stores/files.js) is not
under src/; its updateFile operation is modelled as an id-keyed merge of the given
fields into the matching entry, as spec section 5 requires updates keyed by itemId. -/
def onItemCompleteUpdate (files : List FileItem) (itemId : String) (success : Bool)
    (emsg : Option String) : List FileItem :=
  files.map (fun f => if f.id = itemId then
    { f with status := if success then "completed" else "error", error := emsg } else f)

def subscribeJob (subs : List String) (jobId : String) : List String :=
  if jobId ∈ subs then subs else subs ++ [jobId]

def unsubscribeJob (subs : List String) (jobId : String) : List String :=
  subs.filter (fun j => !(j == jobId))

structure ConvResult where
  blob : String
  contentType : String
  items : List Item
deriving Repr, DecidableEq

structure SysState where
  agg : AggState := {}
  files : List FileItem := []
  subs : List String := []
  result : Option ConvResult := none
  controller : Option Unit := none
deriving Repr, DecidableEq

def applyOutcome (s : SysState) (itemId : String) (r : Except ErrInfo JobPair) : SysState :=
  match r with
  | .error e => { s with files := onItemCompleteUpdate s.files itemId false (some e.message) }
  | .ok jp => { s with subs := subscribeJob s.subs jp.jobId }

def applyOutcomes (s : SysState) (outs : List (String × Except ErrInfo JobPair)) : SysState :=
  outs.foldl (fun st p => applyOutcome st p.1 p.2) s

def startConversionModel (apiKey : String) (resp : Item → RespOutcome)
    (batchResp : Except ErrInfo Unit) (s : SysState) : SysState :=
  if s.files.length = 0 then
    { s with agg := (s.agg.setError "No files available for conversion.").setStatus "error" }
  else
    let s1 : SysState := { s with agg := (AggState.reset s.agg).setStatus "converting" }
    match prepareBatchItems apiKey (s.files.map FileItem.toItem) with
    | .error e => { s1 with agg := (s1.agg.setError e.message).setStatus "error" }
    | .ok items =>
      if useBatchDecision items then
        match batchResp with
        | .ok _ =>
          let s2 : SysState := { s1 with
            files := items.foldl (fun fs i => onItemCompleteUpdate fs i.id true none) s1.files,
            agg := s1.agg.setProgress 100 }
          { s2 with agg := (s2.agg.setError "results.forEach is not a function").setStatus "error" }
        | .error e =>
          let s2 : SysState := { s1 with
            files := items.foldl (fun fs i =>
              onItemCompleteUpdate fs i.id false (some e.message)) s1.files }
          { s2 with agg := (s2.agg.setError e.message).setStatus "error" }
      else
        let s2 := applyOutcomes s1 (itemOutcomes resp items)
        match processItemsJob resp items with
        | .error e => { s2 with agg := (s2.agg.setError e.message).setStatus "error" }
        | .ok results =>
          let s3 : SysState := { s2 with
            subs := results.foldl (fun sb r => subscribeJob sb r.jobId) s2.subs }
          { s3 with agg := s3.agg.setStatus "processing" }

def cancelConversionModel (s : SysState) : SysState :=
  let s1 : SysState := { s with agg := s.agg.setStatus "cancelled", controller := none }
  let s2 : SysState := { s1 with subs := s1.files.foldl (fun sb f =>
      (match f.jobId with | some j => unsubscribeJob sb j | none => sb)) s1.subs }
  { s2 with files := s2.files.map (fun it =>
      if it.status = "converting" then { it with status := "cancelled" } else it) }

def replaceExtMd (name : String) : String :=
  let rev := name.data.reverse
  let suf := rev.takeWhile (fun c => !(c == '.') && !(c == '/'))
  let rest := rev.drop suf.length
  match rest with
  | '.' :: stem => if suf.isEmpty then name else String.mk (stem.reverse ++ ['.', 'm', 'd'])
  | _ => name

def filenameFor (r : ConvResult) (now : String) : String :=
  if r.contentType = "text/markdown" then
    match r.items.head? with
    | some i => if i.name ≠ "" then replaceExtMd i.name else "document_" ++ now ++ ".md"
    | none => "document_" ++ now ++ ".md"
  else "conversion_" ++ now ++ ".zip"

structure SaveCall where
  blob : String
  filename : String
deriving Repr, DecidableEq

def triggerDownloadModel (now : String) (s : SysState) : SysState × Option SaveCall :=
  match s.result with
  | none => (s, none)
  | some r =>
    ({ s with files := [] }, some { blob := r.blob, filename := filenameFor r now })

structure JobRec where
  status : Option String := none
  message : Option String := none
  progress : Option Nat := none
deriving Repr, DecidableEq

def recLookup (m : List (String × JobRec)) (k : String) : Option JobRec :=
  (m.find? (fun p => p.1 == k)).map (fun p => p.2)

def recSet (m : List (String × JobRec)) (k : String) (v : JobRec) : List (String × JobRec) :=
  if (m.find? (fun p => p.1 == k)).isSome then
    m.map (fun p => if p.1 == k then (k, v) else p)
  else m ++ [(k, v)]

def onProgressUpdate (m : List (String × JobRec)) (itemId : String) (p : Nat) :
    List (String × JobRec) :=
  recSet m itemId { (recLookup m itemId).getD {} with progress := some p }

def pdfItemA : Item := { id := "a1", name := "alpha.pdf", file := some ⟨1000⟩ }

def pdfItemB : Item := { id := "b1", name := "beta.pdf", file := some ⟨2000⟩ }

def urlItemRaw : Item :=
  { id := "u1", name := "https://site.example/alpha", type := some "url",
    url := some "https://Site.Example/Alpha/" }

def parentItemRaw : Item :=
  { id := "p1", name := "https://site.example/section", type := some "parent",
    url := some "https://Site.Example/Section/" }

def fileEntryA : FileItem :=
  { id := "a1", name := "alpha.pdf", file := some ⟨1000⟩, type := some "pdf" }

def fileEntryB : FileItem :=
  { id := "b1", name := "beta.pdf", file := some ⟨2000⟩, type := some "pdf" }

def respC3 (i : Item) : RespOutcome :=
  if i.id = "a1" then .err { message := "Network failure", code := "NETWORK_ERROR" }
  else .ok { jobId := some "j2" }

def respAccept (i : Item) : RespOutcome :=
  if i.id = "a1" then .ok { jobId := some "j1" } else .ok { jobId := some "j2" }

instance {α β : Type} [DecidableEq α] [DecidableEq β] : DecidableEq (Except α β) :=
  fun x y =>
    match x, y with
    | .ok a, .ok b => decidable_of_iff (a = b) (by simp)
    | .ok _, .error _ => isFalse (by simp)
    | .error _, .ok _ => isFalse (by simp)
    | .error a, .error b => decidable_of_iff (a = b) (by simp)

def isOkE {α : Type} : Except ErrInfo α → Bool
  | .ok _ => true
  | .error _ => false

def urlOf : Except ErrInfo Item → Option String
  | .ok o => o.url
  | .error _ => none

def jobIdOf : RespOutcome → String
  | .ok d => d.jobId.getD ""
  | .err _ => ""

def preparedDocs : List Item :=
  [{ id := "a1", name := "alpha.pdf", type := some "document", file := some ⟨1000⟩,
     options := defaultOptions, shouldBatch := some false },
   { id := "b1", name := "beta.pdf", type := some "document", file := some ⟨2000⟩,
     options := defaultOptions, shouldBatch := some false }]

def preparedWeb : List Item :=
  [{ id := "u1", name := "https://site.example/alpha", type := some "url",
     url := some "https://site.example/alpha", content := some "https://site.example/alpha",
     options := defaultOptions, shouldBatch := some true },
   { id := "p1", name := "https://site.example/section", type := some "parent",
     url := some "https://site.example/section", content := some "https://site.example/section",
     options := defaultOptions.merge parentExtra, shouldBatch := some true }]

def c3Run : SysState := startConversionModel "" respC3 (.ok ()) { files := [fileEntryA, fileEntryB] }

def c4Run : SysState :=
  cancelConversionModel (startConversionModel "" respAccept (.ok ()) { files := [fileEntryA] })

def oggItem : Item := { id := "o1", name := "sound.ogg", file := some ⟨5000⟩ }

def oggOut : Item :=
  { id := "o1", name := "sound.ogg", type := some "audio", file := some ⟨5000⟩,
    options := defaultOptions }

def mp3Item : Item := { id := "m1", name := "song.mp3", file := some ⟨5000⟩ }

def capsUrlItem : Item :=
  { id := "x1", name := "mixed", type := some "url", url := some "HTTP://Example.com/Path/" }

def lowerUrlItem : Item :=
  { id := "x2", name := "mixed", type := some "url", url := some "http://example.com/path" }

def custOptItem : Item :=
  { id := "c1", name := "notes.pdf", file := some ⟨100⟩,
    options := { includeImages := some false, convertLinks := some false } }

def parentCustom : Item :=
  { id := "pc1", name := "https://site.example/top", type := some "parent",
    url := some "https://site.example/top", options := { depth := some 4 } }

def custOptOut : Item :=
  { id := "c1", name := "notes.pdf", type := some "document", file := some ⟨100⟩,
    options := defaultOptions }

def parentCustomOut : Item :=
  { id := "pc1", name := "https://site.example/top", type := some "parent",
    url := some "https://site.example/top", content := some "https://site.example/top",
    options := (defaultOptions.merge parentExtra).merge parentCustom.options }

def urlNormOut : Item :=
  { id := "u1", name := "https://site.example/alpha", type := some "url",
    url := some "https://site.example/alpha", content := some "https://site.example/alpha",
    options := defaultOptions }


theorem toNat_ofNat_add32 (n : Nat) (h1 : 65 ≤ n) (h2 : n ≤ 90) :
    (Char.ofNat (n + 32)).toNat = n + 32 := by
  interval_cases n <;> decide

theorem lowerChar_idem (c : Char) : lowerChar (lowerChar c) = lowerChar c := by
  unfold lowerChar
  split
  · rename_i h
    rw [toNat_ofNat_add32 c.toNat h.1 h.2]
    have h2 : ¬ (65 ≤ c.toNat + 32 ∧ c.toNat + 32 ≤ 90) := by omega
    rw [if_neg h2]
  · rfl

theorem lowerChar_eq_low {c d : Char} (hd : d.toNat < 97 ∨ 122 < d.toNat)
    (h : lowerChar c = d) : c = d := by
  unfold lowerChar at h
  split at h
  · rename_i hc
    have := congrArg Char.toNat h
    rw [toNat_ofNat_add32 c.toNat hc.1 hc.2] at this
    omega
  · exact h

theorem lowerChar_slash {c : Char} : lowerChar c = '/' ↔ c = '/' :=
  ⟨fun h => lowerChar_eq_low (by decide) h, fun h => by subst h; decide⟩

theorem lowerChar_colon {c : Char} : lowerChar c = ':' ↔ c = ':' :=
  ⟨fun h => lowerChar_eq_low (by decide) h, fun h => by subst h; decide⟩

theorem lowerChar_qmark {c : Char} : lowerChar c = '?' ↔ c = '?' :=
  ⟨fun h => lowerChar_eq_low (by decide) h, fun h => by subst h; decide⟩

theorem lowerS_nil : lowerS [] = [] := rfl

theorem lowerS_cons (c : Char) (t : Chars) : lowerS (c :: t) = lowerChar c :: lowerS t := rfl

theorem lowerS_append (a b : Chars) : lowerS (a ++ b) = lowerS a ++ lowerS b := by
  simp [lowerS]

theorem lowerS_idem (l : Chars) : lowerS (lowerS l) = lowerS l := by
  induction l with
  | nil => rfl
  | cons c t ih => rw [lowerS_cons, lowerS_cons, lowerChar_idem, ih]

theorem lowerS_eq_nil {l : Chars} : lowerS l = [] ↔ l = [] := by
  simp [lowerS]

theorem isSlashSlash_eq {l : Chars} (h : isSlashSlash l = true) : ∃ t, l = '/' :: '/' :: t := by
  match l with
  | [] => simp [isSlashSlash] at h
  | [c] => simp [isSlashSlash] at h
  | c1 :: c2 :: t =>
    simp [isSlashSlash] at h
    exact ⟨t, by rw [h.1, h.2]⟩

theorem isSlashSlash_lower (l : Chars) : isSlashSlash (lowerS l) = isSlashSlash l := by
  match l with
  | [] => rfl
  | [c] => rfl
  | c1 :: c2 :: t =>
    show (lowerChar c1 == '/' && lowerChar c2 == '/') = (c1 == '/' && c2 == '/')
    have e1 : (lowerChar c1 == '/') = (c1 == '/') := by
      by_cases h : c1 = '/' <;> simp [h, lowerChar_slash]
    have e2 : (lowerChar c2 == '/') = (c2 == '/') := by
      by_cases h : c2 = '/' <;> simp [h, lowerChar_slash]
    rw [e1, e2]

theorem isSlashSlash_append_colon (x z : Chars) :
    isSlashSlash (x ++ ':' :: z) = isSlashSlash x := by
  match x with
  | [] => cases z <;> simp [isSlashSlash]
  | [c] => simp [isSlashSlash]
  | c1 :: c2 :: t => simp [isSlashSlash]

theorem isSlashSlash_mono {p : Chars} (z : Chars) (h : isSlashSlash p = true) :
    isSlashSlash (p ++ z) = true := by
  match p with
  | [] => simp [isSlashSlash] at h
  | [c] => simp [isSlashSlash] at h
  | c1 :: c2 :: t => simpa [isSlashSlash] using h

theorem splitScheme_eq {l a b : Chars} (h : splitScheme l = some (a, b)) :
    l = a ++ ':' :: '/' :: '/' :: b := by
  induction l generalizing a b with
  | nil => simp [splitScheme] at h
  | cons c rest ih =>
    rw [splitScheme] at h
    split at h
    · rename_i hc
      obtain ⟨t, rfl⟩ := isSlashSlash_eq hc.2
      simp at h
      obtain ⟨rfl, rfl⟩ := h
      rw [hc.1]
      rfl
    · cases hsp : splitScheme rest with
      | none => rw [hsp] at h; simp at h
      | some p =>
        rw [hsp] at h
        simp at h
        obtain ⟨rfl, rfl⟩ := h
        have := ih (a := p.1) (b := p.2) (by rw [hsp])
        rw [show c :: rest = c :: (p.1 ++ ':' :: '/' :: '/' :: p.2) from by rw [← this]]
        rfl

theorem splitScheme_sepFree {l a b : Chars} (h : splitScheme l = some (a, b)) :
    sepFree a = true := by
  induction l generalizing a b with
  | nil => simp [splitScheme] at h
  | cons c rest ih =>
    rw [splitScheme] at h
    split at h
    · simp at h
      obtain ⟨rfl, rfl⟩ := h
      rfl
    · rename_i hc
      cases hsp : splitScheme rest with
      | none => rw [hsp] at h; simp at h
      | some p =>
        rw [hsp] at h
        simp at h
        obtain ⟨rfl, rfl⟩ := h
        have hrest := ih (a := p.1) (b := p.2) (by rw [hsp])
        have hdec := splitScheme_eq (l := rest) (a := p.1) (b := p.2) (by rw [hsp])
        show (!(c == ':' && isSlashSlash p.1) && sepFree p.1) = true
        rw [hrest]
        cases hss : isSlashSlash p.1 with
        | false => simp
        | true =>
          have hrss : isSlashSlash rest = true := by
            rw [hdec]; exact isSlashSlash_mono _ hss
          have hcne : ¬ (c = ':') := fun hcc => hc ⟨hcc, hrss⟩
          simp [hcne]

theorem splitScheme_reconstruct {a : Chars} (b : Chars) (h : sepFree a = true) :
    splitScheme (a ++ ':' :: '/' :: '/' :: b) = some (a, b) := by
  induction a with
  | nil => simp [splitScheme, isSlashSlash]
  | cons c t ih =>
    rw [show (c :: t) ++ ':' :: '/' :: '/' :: b = c :: (t ++ ':' :: '/' :: '/' :: b) from rfl]
    rw [splitScheme]
    have hfree : sepFree t = true := by
      rw [sepFree] at h
      exact (Bool.and_eq_true_iff.mp h).2
    have hcond : ¬ (c = ':' ∧ isSlashSlash (t ++ ':' :: '/' :: '/' :: b) = true) := by
      rw [isSlashSlash_append_colon]
      intro hcc
      rw [sepFree] at h
      have := (Bool.and_eq_true_iff.mp h).1
      rw [hcc.1] at this
      simp [hcc.2] at this
    rw [if_neg hcond, ih hfree]
    rfl

theorem beq_lower_colon (c : Char) : (lowerChar c == ':') = (c == ':') := by
  by_cases h : c = ':' <;> simp [h, lowerChar_colon]

theorem sepFree_lower {a : Chars} (h : sepFree a = true) : sepFree (lowerS a) = true := by
  induction a with
  | nil => rfl
  | cons c t ih =>
    rw [sepFree] at h
    obtain ⟨h1, h2⟩ := Bool.and_eq_true_iff.mp h
    rw [lowerS_cons, sepFree, isSlashSlash_lower, beq_lower_colon, h1, ih h2]
    rfl

theorem splitHost_decomp (l : Chars) : (splitHost l).1 ++ (splitHost l).2 = l := by
  induction l with
  | nil => rfl
  | cons c t ih =>
    rw [splitHost]
    split
    · rfl
    · show c :: ((splitHost t).1 ++ (splitHost t).2) = c :: t
      rw [ih]

theorem splitHost_free (l : Chars) : hostFree (splitHost l).1 = true := by
  induction l with
  | nil => rfl
  | cons c t ih =>
    rw [splitHost]
    split
    · rfl
    · rename_i hc
      show hostFree (c :: (splitHost t).1) = true
      rw [hostFree, List.all_cons]
      simp only [hostFree] at ih
      rw [ih]
      simp [hc]

theorem splitHost_stopHead (l : Chars) : stopHead (splitHost l).2 = true := by
  induction l with
  | nil => rfl
  | cons c t ih =>
    rw [splitHost]
    split
    · rename_i hc; simpa [stopHead]
    · exact ih

theorem splitHost_reconstruct {a : Chars} (b : Chars) (ha : hostFree a = true)
    (hb : stopHead b = true) : splitHost (a ++ b) = (a, b) := by
  induction a with
  | nil =>
    simp only [List.nil_append]
    cases b with
    | nil => rfl
    | cons c t =>
      rw [splitHost, if_pos]
      exact hb
  | cons c t ih =>
    rw [List.cons_append, splitHost]
    rw [hostFree, List.all_cons] at ha
    obtain ⟨h1, h2⟩ := Bool.and_eq_true_iff.mp ha
    rw [if_neg (by simpa using h1)]
    rw [ih h2]

theorem splitPath_decomp (l : Chars) : (splitPath l).1 ++ (splitPath l).2 = l := by
  induction l with
  | nil => rfl
  | cons c t ih =>
    rw [splitPath]
    split
    · rfl
    · show c :: ((splitPath t).1 ++ (splitPath t).2) = c :: t
      rw [ih]

theorem splitPath_free (l : Chars) : qFree (splitPath l).1 = true := by
  induction l with
  | nil => rfl
  | cons c t ih =>
    rw [splitPath]
    split
    · rfl
    · rename_i hc
      show qFree (c :: (splitPath t).1) = true
      rw [qFree, List.all_cons]
      simp only [qFree] at ih
      rw [ih]
      simp [hc]

theorem splitPath_qHead (l : Chars) : qHead (splitPath l).2 = true := by
  induction l with
  | nil => rfl
  | cons c t ih =>
    rw [splitPath]
    split
    · rename_i hc; simpa [qHead]
    · exact ih

theorem splitPath_reconstruct {a : Chars} (b : Chars) (ha : qFree a = true)
    (hb : qHead b = true) : splitPath (a ++ b) = (a, b) := by
  induction a with
  | nil =>
    simp only [List.nil_append]
    cases b with
    | nil => rfl
    | cons c t =>
      rw [splitPath, if_pos (show c = '?' by simpa [qHead] using hb)]
  | cons c t ih =>
    rw [List.cons_append, splitPath]
    rw [qFree, List.all_cons] at ha
    obtain ⟨h1, h2⟩ := Bool.and_eq_true_iff.mp ha
    rw [if_neg (by simpa using h1)]
    rw [ih h2]

theorem isStop_lower (c : Char) : isStop (lowerChar c) = isStop c := by
  unfold isStop
  have e1 : (lowerChar c == '/') = (c == '/') := by
    by_cases h : c = '/' <;> simp [h, lowerChar_slash]
  have e2 : (lowerChar c == '?') = (c == '?') := by
    by_cases h : c = '?' <;> simp [h, lowerChar_qmark]
  rw [e1, e2]

theorem hostFree_lower {a : Chars} (h : hostFree a = true) : hostFree (lowerS a) = true := by
  induction a with
  | nil => rfl
  | cons c t ih =>
    rw [hostFree, List.all_cons] at h
    obtain ⟨h1, h2⟩ := Bool.and_eq_true_iff.mp h
    rw [lowerS_cons, hostFree, List.all_cons, isStop_lower, h1]
    simpa [hostFree] using ih h2

theorem qFree_lower {a : Chars} (h : qFree a = true) : qFree (lowerS a) = true := by
  induction a with
  | nil => rfl
  | cons c t ih =>
    rw [qFree, List.all_cons] at h
    obtain ⟨h1, h2⟩ := Bool.and_eq_true_iff.mp h
    rw [lowerS_cons, qFree, List.all_cons]
    have : (lowerChar c == '?') = (c == '?') := by
      by_cases hc : c = '?' <;> simp [hc, lowerChar_qmark]
    rw [this, h1]
    simpa [qFree] using ih h2

theorem qHead_lower {a : Chars} (h : qHead a = true) : qHead (lowerS a) = true := by
  cases a with
  | nil => rfl
  | cons c t =>
    have h2 : c = '?' := by simpa [qHead] using h
    show (lowerChar c == '?') = true
    rw [h2]
    decide

theorem stripTrail_idem (l : Chars) : stripTrail (stripTrail l) = stripTrail l := by
  induction l with
  | nil => rfl
  | cons c t ih =>
    rw [stripTrail]
    split
    · rfl
    · rename_i hc
      rw [stripTrail]
      rw [ih]
      split
      · rename_i hc2
        exact absurd ⟨hc2.1, hc2.2⟩ hc
      · rfl

theorem stripTrail_lowerS (l : Chars) : stripTrail (lowerS l) = lowerS (stripTrail l) := by
  induction l with
  | nil => rfl
  | cons c t ih =>
    rw [lowerS_cons, stripTrail, stripTrail, ih]
    by_cases hc : c = '/'
    · by_cases ht : stripTrail t = []
      · rw [if_pos ⟨by rw [hc]; decide, by rw [ht]; rfl⟩, if_pos ⟨hc, ht⟩]
        rfl
      · rw [if_neg (by
            intro hx
            exact ht (lowerS_eq_nil.mp hx.2)),
          if_neg (fun hx => ht hx.2)]
        rfl
    · rw [if_neg (fun hx => hc (lowerChar_slash.mp hx.1)), if_neg (fun hx => hc hx.1)]
      rfl

theorem stripTrail_cons (c : Char) (t : Chars) :
    stripTrail (c :: t) = [] ∨ stripTrail (c :: t) = c :: stripTrail t := by
  rw [stripTrail]
  split
  · exact Or.inl rfl
  · exact Or.inr rfl

theorem qFree_stripTrail {l : Chars} (h : qFree l = true) : qFree (stripTrail l) = true := by
  induction l with
  | nil => rfl
  | cons c t ih =>
    rw [qFree, List.all_cons] at h
    obtain ⟨h1, h2⟩ := Bool.and_eq_true_iff.mp h
    rw [stripTrail]
    split
    · rfl
    · rw [qFree, List.all_cons, h1]
      simpa [qFree] using ih h2

theorem parseChars_shape {l : Chars} {u : URLc} (h : parseChars l = some u) :
    sepFree u.scheme = true ∧ lowerS u.scheme = u.scheme ∧ u.scheme ≠ [] ∧
    hostFree u.host = true ∧ lowerS u.host = u.host ∧ u.host ≠ [] ∧
    (∃ t, u.path = '/' :: t) ∧ qFree u.path = true ∧ qHead u.query = true := by
  unfold parseChars at h
  cases hsp : splitScheme l with
  | none => rw [hsp] at h; simp at h
  | some sr =>
    obtain ⟨sch, rest⟩ := sr
    rw [hsp] at h
    simp only [] at h
    split at h
    · simp at h
    · rename_i hschne
      split at h
      · simp at h
      · rename_i hhostne
        have hu := (Option.some.inj h).symm
        subst hu
        refine ⟨sepFree_lower (splitScheme_sepFree hsp), lowerS_idem _, ?_,
          hostFree_lower (splitHost_free rest), lowerS_idem _, ?_, ?_, ?_,
          splitPath_qHead _⟩
        · simpa [lowerS_eq_nil] using hschne
        · simpa [lowerS_eq_nil] using hhostne
        · by_cases hpz : (splitPath (splitHost rest).2).1 = []
          · exact ⟨[], by simp [hpz]⟩
          · have hex : ∃ t3, (splitPath (splitHost rest).2).1 = '/' :: t3 := by
              have hsh := splitHost_stopHead rest
              cases hrest2 : (splitHost rest).2 with
              | nil => rw [hrest2] at hpz; simp [splitPath] at hpz
              | cons c t2 =>
                rw [hrest2] at hsh hpz
                have hshc : isStop c = true := hsh
                by_cases hc : c = '?'
                · rw [show splitPath (c :: t2) = ([], c :: t2) from by
                    rw [splitPath, if_pos hc]] at hpz
                  simp at hpz
                · have hcs : c = '/' := by
                    rcases (by simpa [isStop] using hshc : c = '/' ∨ c = '?') with h1 | h1
                    · exact h1
                    · exact absurd h1 hc
                  rw [splitPath, if_neg hc]
                  exact ⟨(splitPath t2).1, by rw [hcs]⟩
            obtain ⟨t3, ht3⟩ := hex
            exact ⟨t3, by simp [hpz, ht3]⟩
        · by_cases hp : (splitPath (splitHost rest).2).1 = []
          · simp [hp, qFree]
          · rw [if_neg hp]
            exact splitPath_free _

theorem parse_lowerHref (u : URLc)
    (h1 : sepFree u.scheme = true) (h2 : lowerS u.scheme = u.scheme) (h3 : u.scheme ≠ [])
    (h4 : hostFree u.host = true) (h5 : lowerS u.host = u.host) (h6 : u.host ≠ [])
    (h7 : ∃ t, u.path = '/' :: t) (h8 : qFree u.path = true) (h9 : qHead u.query = true) :
    parseChars (lowerS (hrefChars u)) =
      some { scheme := u.scheme, host := u.host,
             path := lowerS u.path, query := lowerS u.query } := by
  obtain ⟨t, hpath⟩ := h7
  have hsep : lowerS schemeSep = schemeSep := by decide
  have hrw : lowerS (hrefChars u) =
      u.scheme ++ ':' :: '/' :: '/' :: (u.host ++ (lowerS u.path ++ lowerS u.query)) := by
    unfold hrefChars
    rw [lowerS_append, lowerS_append, lowerS_append, lowerS_append, hsep, h2, h5]
    simp [schemeSep, List.append_assoc]
  rw [hrw]
  unfold parseChars
  rw [splitScheme_reconstruct (u.host ++ (lowerS u.path ++ lowerS u.query)) h1]
  simp only []
  rw [if_neg h3]
  have hstop : stopHead (lowerS u.path ++ lowerS u.query) = true := by
    rw [hpath, lowerS_cons]
    have : lowerChar '/' = '/' := by decide
    rw [this]
    rfl
  rw [splitHost_reconstruct _ h4 hstop]
  simp only []
  rw [if_neg h6]
  rw [splitPath_reconstruct _ (qFree_lower h8) (qHead_lower h9)]
  simp only []
  have hpne : lowerS u.path ≠ [] := by
    rw [hpath, lowerS_cons]
    simp
  rw [if_neg hpne, h2, h5]

theorem normOfURLc_eq (u : URLc) :
    normOfURLc u = lowerS (hrefChars { u with
      path := if lowerS (stripTrail u.path) = [] then ['/'] else lowerS (stripTrail u.path) }) := rfl

theorem normChars_idem {l r : Chars} (h : normChars l = some r) : normChars r = some r := by
  unfold normChars at h ⊢
  cases hp : parseChars l with
  | none => rw [hp] at h; simp at h
  | some u =>
    rw [hp] at h
    simp only [Option.map_some'] at h
    obtain ⟨hs1, hs2, hs3, hh1, hh2, hh3, hpth, hq1, hq2⟩ := parseChars_shape hp
    have hr : r = normOfURLc u := (Option.some.inj h).symm
    set p : Chars := lowerS (stripTrail u.path) with hpdef
    set pp : Chars := if p = [] then ['/'] else p with hppdef
    set u' : URLc := { scheme := u.scheme, host := u.host, path := pp, query := u.query }
      with hu'
    have hru' : r = lowerS (hrefChars u') := hr
    have hplow : lowerS pp = pp := by
      by_cases hc : p = []
      · rw [hppdef, if_pos hc]
        decide
      · rw [hppdef, if_neg hc, hpdef, lowerS_idem]
    have hpath' : ∃ t2, pp = '/' :: t2 := by
      by_cases hc : p = []
      · exact ⟨[], by rw [hppdef, if_pos hc]⟩
      · obtain ⟨t, ht⟩ := hpth
        rcases stripTrail_cons '/' t with h1 | h1
        · rw [ht] at hpdef
          rw [h1] at hpdef
          exact absurd hpdef hc
        · refine ⟨lowerS (stripTrail t), ?_⟩
          rw [hppdef, if_neg hc, hpdef, ht, h1, lowerS_cons]
          have : lowerChar '/' = '/' := by decide
          rw [this]
    have hq1' : qFree pp = true := by
      by_cases hc : p = []
      · rw [hppdef, if_pos hc]
        decide
      · rw [hppdef, if_neg hc, hpdef]
        exact qFree_lower (qFree_stripTrail hq1)
    have hreparse := parse_lowerHref u' hs1 hs2 hs3 hh1 hh2 hh3 hpath' hq1' hq2
    rw [hru']
    rw [hreparse]
    simp only [Option.map_some']
    congr 1
    -- goal : normOfURLc {scheme := u.scheme, host := u.host, path := lowerS pp, query := lowerS u.query}
    --        = lowerS (hrefChars u')
    have hstrip : stripTrail pp = stripTrail pp := rfl
    have hkey : (if lowerS (stripTrail (lowerS pp)) = [] then ['/']
        else lowerS (stripTrail (lowerS pp))) = pp := by
      rw [hplow]
      by_cases hc : p = []
      · rw [hppdef, if_pos hc]
        decide
      · have hpeq : pp = p := by rw [hppdef, if_neg hc]
        rw [hpeq]
        have hst : stripTrail p = p := by
          rw [hpdef, stripTrail_lowerS, stripTrail_idem]
        rw [hst, hpdef, lowerS_idem]
        rw [← hpdef, if_neg hc]
    rw [normOfURLc_eq]
    simp only [hkey]
    unfold hrefChars
    simp only []
    rw [lowerS_append, lowerS_append, lowerS_append, lowerS_append]
    rw [lowerS_append, lowerS_append, lowerS_append, lowerS_append]
    rw [hs2, hh2, hplow, lowerS_idem]

theorem normChars_ne_nil {l r : Chars} (h : normChars l = some r) : r ≠ [] := by
  unfold normChars at h
  cases hp : parseChars l with
  | none => rw [hp] at h; simp at h
  | some u =>
    rw [hp] at h
    simp only [Option.map_some'] at h
    obtain ⟨hs1, hs2, hs3, rest⟩ := parseChars_shape hp
    have hr : r = normOfURLc u := (Option.some.inj h).symm
    rw [hr, normOfURLc_eq]
    unfold hrefChars
    simp only []
    rw [lowerS_append, lowerS_append, lowerS_append, lowerS_append]
    intro hx
    have h1 : lowerS u.scheme = [] := by
      rcases List.append_eq_nil.mp hx with ⟨h2, _⟩
      rcases List.append_eq_nil.mp h2 with ⟨h3, _⟩
      rcases List.append_eq_nil.mp h3 with ⟨h4, _⟩
      exact (List.append_eq_nil.mp h4).1
    exact hs3 (lowerS_eq_nil.mp h1)

theorem mergeField_absorb {α : Type} (a b : Option α) :
    mergeField a (mergeField a b) = mergeField a b := by
  cases b with
  | some v => rfl
  | none => cases a <;> rfl

theorem Options.merge_absorb (a b : Options) : a.merge (a.merge b) = a.merge b := by
  simp [Options.merge, mergeField_absorb]

theorem normalizeUrl_idem {s r : String} (h : normalizeUrl s = some r) :
    normalizeUrl r = some r := by
  unfold normalizeUrl at h ⊢
  cases hn : normChars s.data with
  | none => rw [hn] at h; simp at h
  | some l =>
    rw [hn] at h
    simp only [Option.map_some'] at h
    have hr : r = String.mk l := (Option.some.inj h).symm
    have hd : r.data = l := by rw [hr]
    rw [hd, normChars_idem hn]
    simp only [Option.map_some']
    rw [hr]

theorem normalizeUrl_ne_empty {s r : String} (h : normalizeUrl s = some r) : r ≠ "" := by
  unfold normalizeUrl at h
  cases hn : normChars s.data with
  | none => rw [hn] at h; simp at h
  | some l =>
    rw [hn] at h
    simp only [Option.map_some'] at h
    have hr : r = String.mk l := (Option.some.inj h).symm
    have hne := normChars_ne_nil hn
    intro hx
    rw [hx] at hr
    exact hne (congrArg String.data hr).symm

theorem recLookup_mapSet (m : List (String × JobRec)) (k : String) (v : JobRec) :
    recLookup (m.map (fun p => if p.1 == k then (k, v) else p)) k =
      if (List.find? (fun p => p.1 == k) m).isSome then some v else none := by
  induction m with
  | nil => simp [recLookup]
  | cons q t ih =>
    rw [List.map_cons]
    unfold recLookup at ih ⊢
    rw [List.find?_cons, List.find?_cons]
    by_cases hq : (q.1 == k) = true
    · rw [if_pos hq, hq]
      simp
    · have hqf : (q.1 == k) = false := by simpa using hq
      rw [if_neg hq, hqf]
      exact ih

theorem recLookup_appendNew (m : List (String × JobRec)) (k : String) (v : JobRec)
    (h : List.find? (fun p => p.1 == k) m = none) :
    recLookup (m ++ [(k, v)]) k = some v := by
  induction m with
  | nil => simp [recLookup]
  | cons q t ih =>
    rw [List.find?_cons] at h
    by_cases hq : (q.1 == k) = true
    · rw [hq] at h
      simp at h
    · have hqf : (q.1 == k) = false := by simpa using hq
      rw [hqf] at h
      unfold recLookup at ih ⊢
      rw [List.cons_append, List.find?_cons, hqf]
      exact ih h

theorem recLookup_recSet (m : List (String × JobRec)) (k : String) (v : JobRec) :
    recLookup (recSet m k v) k = some v := by
  unfold recSet
  by_cases hs : (List.find? (fun p => p.1 == k) m).isSome
  · rw [if_pos hs, recLookup_mapSet, if_pos hs]
  · rw [if_neg hs]
    exact recLookup_appendNew m k v (Option.not_isSome_iff_eq_none.mp hs)

theorem collectResults_allOk {α β : Type} (f : β → Except ErrInfo α) (g : β → α)
    (items : List β) (h : ∀ i ∈ items, f i = .ok (g i)) :
    collectResults (items.map f) = .ok (items.map g) := by
  induction items with
  | nil => rfl
  | cons x t ih =>
    rw [List.map_cons, List.map_cons]
    rw [h x (List.mem_cons_self x t)]
    unfold collectResults
    rw [ih (fun i hi => h i (List.mem_cons_of_mem x hi))]
    rfl

theorem collectResults_hasError {α : Type} (l : List (Except ErrInfo α))
    (h : ∃ x ∈ l, ∃ e, x = .error e) : ∃ e2, collectResults l = .error e2 := by
  induction l with
  | nil => simp at h
  | cons x t ih =>
    obtain ⟨y, hy, e, he⟩ := h
    rcases List.mem_cons.mp hy with rfl | hyt
    · rw [he]
      exact ⟨e, rfl⟩
    · cases x with
      | error e3 => exact ⟨e3, rfl⟩
      | ok a =>
        obtain ⟨e2, he2⟩ := ih ⟨y, hyt, e, he⟩
        refine ⟨e2, ?_⟩
        unfold collectResults
        rw [he2]
        rfl

/-- Claim C1: dispatch uses a single multipart batch request exactly when more
than one item is submitted and the items are not all of the document kind;
otherwise it issues one request per item. In particular two document files are
dispatched as two per-item requests yielding two job ids, while one url item
plus one parent item are dispatched as one batch request whose items JSON field
is an array of length two. -/
theorem c1_claim :
    (∀ items : List Item,
      (useBatchDecision items = true ↔
        1 < items.length ∧ ¬ (∀ i ∈ items, i.type = some "document")))
  ∧ (∀ items : List Item, useBatchDecision items = false →
      dispatchPlan items = .perItem (items.map requestOf) ∧
        (items.map requestOf).length = items.length)
  ∧ (∀ items : List Item, useBatchDecision items = true →
      dispatchPlan items = .batch (processBatchForm items))
  ∧ (prepareBatchItems "" [pdfItemA, pdfItemB] = .ok preparedDocs ∧
      useBatchDecision preparedDocs = false ∧
      dispatchPlan preparedDocs = .perItem (preparedDocs.map requestOf) ∧
      (preparedDocs.map requestOf).length = 2 ∧
      processItemsJob respAccept preparedDocs =
        .ok [{ jobId := "j1", itemId := "a1" }, { jobId := "j2", itemId := "b1" }])
  ∧ (prepareBatchItems "" [urlItemRaw, parentItemRaw] = .ok preparedWeb ∧
      useBatchDecision preparedWeb = true ∧
      (∃ form, dispatchPlan preparedWeb = .batch form ∧
        (∃ l, form.itemsField = some l ∧ l.length = 2))) := by
  refine ⟨?_, ?_, ?_, ?_, ?_⟩
  · intro items
    simp [useBatchDecision, List.all_eq_true, beq_iff_eq]
  · intro items h
    refine ⟨?_, by simp⟩
    simp [dispatchPlan, h]
  · intro items h
    simp [dispatchPlan, h]
  · refine ⟨by decide, by decide, by decide, by decide, by decide⟩
  · refine ⟨by decide, by decide, ⟨processBatchForm preparedWeb, by decide, ?_⟩⟩
    refine ⟨(processBatchForm preparedWeb).itemsField.getD [], ?_, by decide⟩
    decide

/-- Witness for C1, applying the batching-rule theorem at the two concrete
prepared item lists. -/
theorem c1_claim_witness :
    useBatchDecision preparedDocs = false ∧
    dispatchPlan preparedDocs = .perItem (preparedDocs.map requestOf) ∧
    useBatchDecision preparedWeb = true ∧
    dispatchPlan preparedWeb = .batch (processBatchForm preparedWeb) := by
  refine ⟨by decide, (c1_claim.2.1 preparedDocs (by decide)).1, by decide,
    c1_claim.2.2.1 preparedWeb (by decide)⟩

/-- Counterexample to claim C2: the progress handler stores each incoming
progress value unconditionally, so after receiving progress 40 and then 25 for
the same job the tracker holds 25, not 40. -/
theorem c2_counterexample :
    ((recLookup (onProgressUpdate (onProgressUpdate [] "item-1" 40) "item-1" 25)
        "item-1").map (fun r => r.progress)) = some (some 25) ∧
    ((recLookup (onProgressUpdate (onProgressUpdate [] "item-1" 40) "item-1" 25)
        "item-1").map (fun r => r.progress)) ≠ some (some 40) := by
  constructor
  · decide
  · decide

/-- Claim C2 (amended): the recorded progress is not monotonic; the handler
overwrites the stored value with every received progress event, so the stored
value is always the last received one. -/
theorem c2_last_write_wins (m : List (String × JobRec)) (id : String) (p1 p2 : Nat) :
    ((recLookup (onProgressUpdate (onProgressUpdate m id p1) id p2) id).map
      (fun r => r.progress)) = some (some p2) := by
  unfold onProgressUpdate
  rw [recLookup_recSet]
  rfl

/-- Counterexample to claim C3: with two document items where the first
dispatch fails, the failed item is marked error and the other item finishes
dispatch (its job is subscribed), but the aggregate status becomes error, not
processing, and errorCount stays 0. -/
theorem c3_counterexample :
    c3Run.agg.status = "error" ∧ c3Run.agg.status ≠ "processing" ∧
    c3Run.agg.status ≠ "completed" ∧ c3Run.agg.errorCount = 0 ∧
    c3Run.files.map (fun f => f.status) = ["error", "Ready"] ∧
    c3Run.files.map (fun f => f.error) = [some "Network failure", none] ∧
    c3Run.subs = ["j2"] := by
  refine ⟨by decide, by decide, by decide, by decide, by decide, by decide, by decide⟩

/-- Claim C3 (amended): a dispatch failure for one item is recorded against
that item and every item outcome is still produced, but the joint dispatch
promise rejects as soon as any item fails, and the orchestrator catch block
then sets the aggregate status to error while leaving errorCount unchanged. -/
theorem c3_amended :
    (∀ (resp : Item → RespOutcome) (items : List Item) (i : Item) (e : ErrInfo),
      i ∈ items → itemJobResult resp i = .error e →
      ∃ e2, processItemsJob resp items = .error e2)
  ∧ (∀ (agg : AggState) (msg : String),
      ((agg.setError msg).setStatus "error").status = "error" ∧
      ((agg.setError msg).setStatus "error").errorCount = agg.errorCount)
  ∧ (∀ (resp : Item → RespOutcome) (items : List Item) (i : Item),
      i ∈ items → (i.id, itemJobResult resp i) ∈ itemOutcomes resp items) := by
  refine ⟨?_, ?_, ?_⟩
  · intro resp items i e hmem herr
    apply collectResults_hasError
    exact ⟨itemJobResult resp i, List.mem_map_of_mem (itemJobResult resp) hmem, e, herr⟩
  · intro agg msg
    exact ⟨rfl, rfl⟩
  · intro resp items i hmem
    exact List.mem_map_of_mem (fun i => (i.id, itemJobResult resp i)) hmem

/-- Witness for the amended C3 at a concrete failing run. -/
theorem c3_amended_witness :
    (∃ e2, processItemsJob respC3 [pdfItemA, pdfItemB] = .error e2) ∧
    (("a1", itemJobResult respC3 pdfItemA) ∈ itemOutcomes respC3 [pdfItemA, pdfItemB]) := by
  constructor
  · exact c3_amended.1 respC3 [pdfItemA, pdfItemB] pdfItemA
      { message := "Network failure", code := "NETWORK_ERROR" } (by decide) (by decide)
  · exact c3_amended.2.2 respC3 [pdfItemA, pdfItemB] pdfItemA (by decide)

/-- Counterexample to claim C4: after a conversion started from one Ready
file entry with an accepted job, cancelConversion leaves the item in the
non-terminal status Ready rather than cancelled, and the job subscription
remains active because no file entry carries a jobId. -/
theorem c4_counterexample :
    c4Run.agg.status = "cancelled" ∧
    c4Run.files.map (fun f => f.status) = ["Ready"] ∧
    ("Ready" : String) ∉ (["completed", "error", "cancelled"] : List String) ∧
    c4Run.subs = ["j1"] ∧ c4Run.subs ≠ [] := by
  refine ⟨by decide, by decide, by decide, by decide, by decide⟩

theorem foldl_unsub_nojob (sb : List String) (fs : List FileItem)
    (h : ∀ f ∈ fs, f.jobId = none) :
    fs.foldl (fun sb f =>
      (match f.jobId with | some j => unsubscribeJob sb j | none => sb)) sb = sb := by
  induction fs generalizing sb with
  | nil => rfl
  | cons x t ih =>
    rw [List.foldl_cons]
    rw [h x (List.mem_cons_self x t)]
    exact ih sb (fun f hf => h f (List.mem_cons_of_mem x hf))

/-- Claim C4 (amended): cancelConversion sets the aggregate status to
cancelled and clears the client controller, but it re-labels only items whose
status is exactly converting, and it unsubscribes only jobs recorded on file
entries, so when no entry carries a jobId every subscription survives. -/
theorem c4_amended (s : SysState) :
    (cancelConversionModel s).agg.status = "cancelled"
  ∧ (cancelConversionModel s).controller = none
  ∧ (∀ it ∈ s.files, it.status ≠ "converting" → it ∈ (cancelConversionModel s).files)
  ∧ (∀ it ∈ s.files, it.status = "converting" →
      { it with status := "cancelled" } ∈ (cancelConversionModel s).files)
  ∧ ((∀ f ∈ s.files, f.jobId = none) → (cancelConversionModel s).subs = s.subs) := by
  refine ⟨rfl, rfl, ?_, ?_, ?_⟩
  · intro it hmem hst
    have : (if it.status = "converting" then { it with status := "cancelled" } else it) = it :=
      if_neg hst
    rw [show (cancelConversionModel s).files = s.files.map (fun it =>
        if it.status = "converting" then { it with status := "cancelled" } else it) from rfl]
    rw [← this]
    exact List.mem_map_of_mem _ hmem
  · intro it hmem hst
    have : (if it.status = "converting" then { it with status := "cancelled" } else it) =
        { it with status := "cancelled" } := if_pos hst
    rw [show (cancelConversionModel s).files = s.files.map (fun it =>
        if it.status = "converting" then { it with status := "cancelled" } else it) from rfl]
    rw [← this]
    exact List.mem_map_of_mem _ hmem
  · intro h
    show s.files.foldl _ s.subs = s.subs
    exact foldl_unsub_nojob s.subs s.files h

/-- Witness for the amended C4 at a concrete state. -/
theorem c4_amended_witness :
    fileEntryA ∈ (cancelConversionModel { files := [fileEntryA], subs := ["j9"] }).files ∧
    (cancelConversionModel { files := [fileEntryA], subs := ["j9"] }).subs = ["j9"] := by
  constructor
  · exact (c4_amended { files := [fileEntryA], subs := ["j9"] }).2.2.1 fileEntryA
      (by decide) (by decide)
  · exact (c4_amended { files := [fileEntryA], subs := ["j9"] }).2.2.2.2 (by decide)

/-- Counterexample to claim C5: an accepted response without a job id makes
dispatch fail with a ConversionError whose code is the default
CONVERSION_ERROR, not an ApiError with code NO_JOB_ID. -/
theorem c5_counterexample :
    itemJobResult (fun _ => .ok { jobId := none }) pdfItemA = .error noJobIdError ∧
    noJobIdError.code = "CONVERSION_ERROR" ∧ noJobIdError.code ≠ "NO_JOB_ID" ∧
    processItemsJob (fun _ => .ok { jobId := none }) [pdfItemA] = .error noJobIdError := by
  refine ⟨by decide, by decide, by decide, by decide⟩

/-- Claim C5 (amended): when every accepted response carries a non-empty job
id, per-item dispatch returns exactly one job pair per submitted item, mapping
each job id to that item; when a response carries no job id, dispatch fails
with the ConversionError whose message is No job ID received from server and
whose code is the default CONVERSION_ERROR. -/
theorem c5_amended :
    (∀ (resp : Item → RespOutcome) (items : List Item),
      (∀ i ∈ items, ∃ j, j ≠ "" ∧ resp i = .ok { jobId := some j }) →
      processItemsJob resp items = .ok (items.map (fun i =>
        { jobId := jobIdOf (resp i), itemId := i.id })))
  ∧ (∀ (resp : Item → RespOutcome) (i : Item) (d : RespData),
      resp i = .ok d → d.jobId.getD "" = "" →
      itemJobResult resp i = .error noJobIdError) := by
  constructor
  · intro resp items h
    apply collectResults_allOk
    intro i hi
    obtain ⟨j, hj, hr⟩ := h i hi
    unfold itemJobResult jobIdOf
    rw [hr]
    simp only [Option.getD_some]
    rw [if_neg hj]
  · intro resp i d hr hid
    unfold itemJobResult
    rw [hr]
    show (if d.jobId.getD "" = "" then (Except.error noJobIdError : Except ErrInfo JobPair)
      else Except.ok { jobId := d.jobId.getD "", itemId := i.id }) = Except.error noJobIdError
    rw [if_pos hid]

/-- Witness for the amended C5 at concrete responses. -/
theorem c5_amended_witness :
    processItemsJob respAccept [pdfItemA] = .ok [{ jobId := "j1", itemId := "a1" }] ∧
    itemJobResult (fun _ => .ok { jobId := some "" }) pdfItemA = .error noJobIdError := by
  constructor
  · have := c5_amended.1 respAccept [pdfItemA]
      (fun i hi => by
        have : i = pdfItemA := by simpa using hi
        exact ⟨"j1", by decide, by rw [this]; decide⟩)
    simpa using this
  · exact c5_amended.2 (fun _ => .ok { jobId := some "" }) pdfItemA { jobId := some "" }
      rfl (by decide)

/-- Counterexample to claim C6: an ogg audio file and a url item are both
normalized successfully without any API key, although the claim says every
audio file and every URL-derived item requires a credential. -/
theorem c6_counterexample :
    prepareItem "" oggItem = .ok oggOut ∧ oggOut.type = some "audio" ∧
    ("ogg" : String) ∈ audioExts ∧ ("ogg" : String) ∉ apiRequiredExts ∧
    urlOf (prepareItem "" urlItemRaw) = some "https://site.example/alpha" ∧
    isOkE (prepareItem "" urlItemRaw) = true := by
  refine ⟨by decide, by decide, by decide, by decide, by decide, by decide⟩

/-- Claim C6 (amended): the credential gate applies exactly to file items
whose extension is in API_REQUIRED (mp3, wav, m4a, mp4, webm, avi): such items
fail normalization with a ValidationError when no API key is supplied, while
items without a file (url and parent items) are normalized entirely
independently of the API key. -/
theorem c6_amended :
    (∀ (apiKey : String) (item : Item) (f : FileData),
      item.file = some f → apiKey = "" → item.id ≠ "" → item.name ≠ "" →
      f.size ≤ FILE_SIZE_LIMIT → extOf item.name ∈ apiRequiredExts →
      prepareItem apiKey item =
        .error (ConversionError.validation "API key is required for this file type"))
  ∧ (∀ (k1 k2 : String) (item : Item), item.file = none →
      prepareItem k1 item = prepareItem k2 item) := by
  constructor
  · intro apiKey item f hfile hkey hid hname hsize hreq
    unfold prepareItem
    rw [if_neg (not_or.mpr ⟨hid, hname⟩)]
    split
    · rename_i f2 h2
      rw [hfile] at h2
      obtain rfl : f = f2 := Option.some.inj h2
      rw [if_neg (by omega : ¬ f.size > FILE_SIZE_LIMIT)]
      cases hdet : determineFileType (extOf item.name) with
      | none =>
        exfalso
        have hreq2 : extOf item.name = "mp3" ∨ extOf item.name = "wav" ∨
            extOf item.name = "m4a" ∨ extOf item.name = "mp4" ∨
            extOf item.name = "webm" ∨ extOf item.name = "avi" := by
          simpa [apiRequiredExts] using hreq
        rcases hreq2 with h | h | h | h | h | h <;> rw [h] at hdet <;>
          exact absurd hdet (by decide)
      | some t =>
        dsimp only
        rw [if_pos ⟨hreq, hkey⟩]
    · rename_i h2
      rw [hfile] at h2
      exact Option.noConfusion h2
  · intro k1 k2 item hfile
    unfold prepareItem
    rw [hfile]

/-- Witness for the amended C6 at an mp3 file and a url item. -/
theorem c6_amended_witness :
    prepareItem "" mp3Item =
      .error (ConversionError.validation "API key is required for this file type") ∧
    prepareItem "" urlItemRaw = prepareItem "some-key" urlItemRaw := by
  constructor
  · exact c6_amended.1 "" mp3Item ⟨5000⟩ (by decide) rfl (by decide) (by decide)
      (by decide) (by decide)
  · exact c6_amended.2 "" "some-key" urlItemRaw (by decide)

/-- Claim C7: URL canonicalization rounds off case and trailing-slash
differences: normalizing an item with url HTTP://Example.com/Path/ and one with
url http://example.com/path yields items whose canonical url strings are equal,
both being http://example.com/path. -/
theorem c7_canonical_roundtrip :
    urlOf (prepareItem "" capsUrlItem) = urlOf (prepareItem "" lowerUrlItem) ∧
    urlOf (prepareItem "" capsUrlItem) = some "http://example.com/path" ∧
    isOkE (prepareItem "" capsUrlItem) = true ∧
    isOkE (prepareItem "" lowerUrlItem) = true := by
  refine ⟨by decide, by decide, by decide, by decide⟩

/-- Counterexample to claim C9: for a file item, caller-supplied options are
discarded rather than taking precedence; a file item submitted with
includeImages false is normalized with includeImages true. -/
theorem c9_counterexample :
    prepareItem "" custOptItem =
      .ok { id := "c1", name := "notes.pdf", type := some "document", file := some ⟨100⟩,
            options := defaultOptions } ∧
    defaultOptions.includeImages = some true ∧
    custOptItem.options.includeImages = some false ∧
    (some true : Option Bool) ≠ some false := by
  refine ⟨by decide, by decide, by decide, by decide⟩

/-- Claim C9 (amended): url and parent items receive the defaults
includeImages, includeMeta and convertLinks true, parent items additionally
depth 1 and maxPages 10, and caller-supplied options take precedence because
they are merged last; file items instead always carry exactly the defaults and
their caller-supplied options are discarded. -/
theorem c9_amended :
    (∀ (apiKey : String) (item : Item) (f : FileData) (out : Item),
      item.file = some f → prepareItem apiKey item = .ok out →
      out.options = defaultOptions)
  ∧ (∀ (apiKey : String) (item : Item) (out : Item),
      item.file = none → prepareItem apiKey item = .ok out →
      out.options = (defaultOptions.merge
        (if item.type = some "parent" then parentExtra else {})).merge item.options ∧
      (item.options.includeImages = none → out.options.includeImages = some true) ∧
      (∀ b, item.options.includeImages = some b → out.options.includeImages = some b) ∧
      (item.options.includeMeta = none → out.options.includeMeta = some true) ∧
      (item.options.convertLinks = none → out.options.convertLinks = some true) ∧
      (item.type = some "parent" → item.options.depth = none →
        out.options.depth = some 1) ∧
      (item.type = some "parent" → item.options.maxPages = none →
        out.options.maxPages = some 10) ∧
      (∀ d, item.options.depth = some d → out.options.depth = some d)) := by
  constructor
  · intro apiKey item f out hfile h
    unfold prepareItem at h
    split at h
    · exact absurd h (by simp)
    · rw [hfile] at h
      dsimp only at h
      split at h
      · exact absurd h (by simp)
      · split at h
        · exact absurd h (by simp)
        · split at h
          · exact absurd h (by simp)
          · have := Except.ok.inj h
            rw [← this]
  · intro apiKey item out hfile h
    unfold prepareItem at h
    split at h
    · exact absurd h (by simp)
    · rw [hfile] at h
      dsimp only at h
      split at h
      · split at h
        · exact absurd h (by simp)
        · have hout := Except.ok.inj h
          have hopt : out.options = (defaultOptions.merge
              (if item.type = some "parent" then parentExtra else {})).merge item.options := by
            rw [← hout]
          refine ⟨hopt, ?_, ?_, ?_, ?_, ?_, ?_, ?_⟩
          · intro hx
            rw [hopt]
            by_cases hp : item.type = some "parent" <;>
              simp [hp, Options.merge, mergeField, defaultOptions, parentExtra, hx]
          · intro b hx
            rw [hopt]
            by_cases hp : item.type = some "parent" <;>
              simp [hp, Options.merge, mergeField, defaultOptions, parentExtra, hx]
          · intro hx
            rw [hopt]
            by_cases hp : item.type = some "parent" <;>
              simp [hp, Options.merge, mergeField, defaultOptions, parentExtra, hx]
          · intro hx
            rw [hopt]
            by_cases hp : item.type = some "parent" <;>
              simp [hp, Options.merge, mergeField, defaultOptions, parentExtra, hx]
          · intro hp hx
            rw [hopt]
            simp [hp, Options.merge, mergeField, defaultOptions, parentExtra, hx]
          · intro hp hx
            rw [hopt]
            simp [hp, Options.merge, mergeField, defaultOptions, parentExtra, hx]
          · intro d hx
            rw [hopt]
            by_cases hp : item.type = some "parent" <;>
              simp [hp, Options.merge, mergeField, defaultOptions, parentExtra, hx]
      · exact absurd h (by simp)

/-- Witness for the amended C9 at a file item with custom options and a
parent item with a custom depth. -/
theorem c9_amended_witness :
    custOptOut.options = defaultOptions ∧
    parentCustomOut.options.depth = some 4 ∧
    parentCustomOut.options.maxPages = some 10 := by
  have h1 := c9_amended.1 "" custOptItem ⟨100⟩ custOptOut (by decide) (by decide)
  have h2 := c9_amended.2 "" parentCustom parentCustomOut (by decide) (by decide)
  exact ⟨h1, h2.2.2.2.2.2.2.2 4 (by decide), h2.2.2.2.2.2.2.1 (by decide) (by decide)⟩

/-- Claim C10: when the result store holds no result, triggerDownload
returns without saving any file and leaves the whole state, including the item
list and the result store, unchanged. -/
theorem c10_null_result (now : String) (s : SysState) (h : s.result = none) :
    triggerDownloadModel now s = (s, none) := by
  unfold triggerDownloadModel
  rw [h]

/-- Witness for C10 at a concrete state with a file entry and no result. -/
theorem c10_null_result_witness :
    triggerDownloadModel "ts" { files := [fileEntryA], result := none } =
      ({ files := [fileEntryA], result := none }, none) :=
  c10_null_result "ts" { files := [fileEntryA], result := none } rfl

/-- Claim C8: normalization is idempotent; for every raw item accepted by
prepareItem, feeding the normalized output back through prepareItem returns
exactly the same output. -/
theorem c8_idempotent (apiKey : String) (item out : Item)
    (h : prepareItem apiKey item = .ok out) : prepareItem apiKey out = .ok out := by
  unfold prepareItem at h
  split at h
  · exact absurd h (by simp)
  · rename_i hguard
    rw [not_or] at hguard
    cases hfile : item.file with
    | some f =>
      rw [hfile] at h
      dsimp only at h
      split at h
      · exact absurd h (by simp)
      · rename_i hsize
        cases hdet : determineFileType (extOf item.name) with
        | none => rw [hdet] at h; exact absurd h (by simp)
        | some t =>
          rw [hdet] at h
          dsimp only at h
          split at h
          · exact absurd h (by simp)
          · rename_i hapi
            have hout := (Except.ok.inj h).symm
            subst hout
            unfold prepareItem
            rw [if_neg (not_or.mpr ⟨hguard.1, hguard.2⟩)]
            dsimp only
            rw [if_neg hsize, hdet]
            dsimp only
            rw [if_neg hapi]
    | none =>
      rw [hfile] at h
      dsimp only at h
      split at h
      · rename_i hcond
        cases hnorm : normalizeUrl ((jsOr item.url (jsOr item.content (some item.name))).getD "")
          with
        | none => rw [hnorm] at h; exact absurd h (by simp)
        | some n =>
          rw [hnorm] at h
          dsimp only at h
          have hout := (Except.ok.inj h).symm
          subst hout
          have hne : n ≠ "" := normalizeUrl_ne_empty hnorm
          have htr : truthyS (some n) = true := by
            simp [truthyS, hne]
          unfold prepareItem
          rw [if_neg (not_or.mpr ⟨hguard.1, hguard.2⟩)]
          dsimp only
          by_cases hpar : item.type = some "parent"
          · rw [if_pos hpar]
            rw [if_pos (Or.inr (Or.inl rfl))]
            rw [show jsOr (some n) (jsOr (some n) (some item.name)) = some n from by
              simp [jsOr, htr]]
            dsimp only [Option.getD_some]
            rw [normalizeUrl_idem hnorm]
            dsimp only
            rw [if_pos rfl, if_pos rfl]
            rw [if_pos hpar]
            rw [Options.merge_absorb]
          · rw [if_neg hpar]
            rw [if_pos (Or.inl rfl)]
            rw [show jsOr (some n) (jsOr (some n) (some item.name)) = some n from by
              simp [jsOr, htr]]
            dsimp only [Option.getD_some]
            rw [normalizeUrl_idem hnorm]
            dsimp only
            rw [if_neg (by simp : ¬ (some "url" : Option String) = some "parent"),
              if_neg (by simp : ¬ (some "url" : Option String) = some "parent")]
            rw [if_neg hpar]
            rw [Options.merge_absorb]
      · exact absurd h (by simp)

/-- Witness for C8 at a concrete file item and a concrete url item. -/
theorem c8_idempotent_witness :
    prepareItem "" oggOut = .ok oggOut ∧ prepareItem "" urlNormOut = .ok urlNormOut := by
  constructor
  · exact c8_idempotent "" oggItem oggOut (by decide)
  · exact c8_idempotent "" urlItemRaw urlNormOut (by decide)
